import Mathlib

/-!
Verification development for the execution core of the flux dataflow query
engine.  The definitions below are shallow embeddings of the Go source files:

* `src/execute/executor.go` — graph builder (plan visitor), resource
  defaulting, validation, abort, and the `Execute` entry point;
* `src/arrow/allocator.go` — the two-parent diff transformation and its
  watermark / finish protocol;
* `src/stdlib/universe/limit.go` — the legacy and the narrow (chunked)
  limit transformations;
* the `QuantileAgg` t-digest free-list accounting from the quantile
  operator bundled in `src/stdlib/universe`.

Machine integers (Go `int`, `int64`) are modelled as `Int`; list/array
indexing that can panic in Go is modelled by a dedicated `crash` outcome.
-/

namespace FluxExec

/-- Error classification codes, after the flux `codes` package.  `Inherit`
is the pseudo-code used by error wrapping to keep the wrapped code. -/
inductive ErrCode where
  | inherit
  | invalid
  | internal
  | failedPrecondition
  | unimplemented
  deriving DecidableEq, Repr

/-- Classified error value, after `internal/errors`.  Modelled from the spec:
the `errors` package itself is not under `src/`; a wrapped error keeps its
own code when wrapped with `Inherit` and otherwise takes the wrapping code. -/
structure FluxError where
  code : ErrCode
  msg : String
  deriving DecidableEq, Repr

/-- Error wrapping, after `errors.Wrap(err, code, msg)`.  Modelled from the
spec: wrapping with `Inherit` preserves the classification of the wrapped
error. -/
def wrapErr (code : ErrCode) (msg : String) (e : FluxError) : FluxError :=
  { code := if code = ErrCode.inherit then e.code else code
    msg := msg ++ ": " ++ e.msg }

/-- Outcome of a Go computation that can return an error or panic.  `crash`
stands for a Go runtime panic (out-of-range index, nil-map dereference);
panics are distinct from returned errors. -/
inductive Build (α : Type) where
  | ok (a : α)
  | fail (e : FluxError)
  | crash
  deriving DecidableEq, Repr

def Build.bind {α β : Type} : Build α → (α → Build β) → Build β
  | Build.ok a, f => f a
  | Build.fail e, _ => Build.fail e
  | Build.crash, _ => Build.crash

instance : Monad Build where
  pure := Build.ok
  bind := Build.bind

/-- Predicate: the computation returned an error (neither success nor panic). -/
def Build.isFail {α : Type} : Build α → Prop
  | Build.fail _ => True
  | _ => False

instance {α : Type} : DecidablePred (Build.isFail (α := α)) := by
  intro b
  cases b <;> simp [Build.isFail] <;> infer_instance

/-- Dataset identifier: derived deterministically from the plan-node identity
and the replica index, after `datasetIDFromNodeID(id, i)`. -/
structure DatasetID where
  nodeID : String
  replica : Nat
  deriving DecidableEq, Repr

def datasetIDFromNodeID (nid : String) (i : Nat) : DatasetID :=
  { nodeID := nid, replica := i }

/-- Procedure spec attached to a plan node.  `yieldName = some n` means the
spec implements `plan.YieldProcedureSpec` with yield name `n`;
`sideEffect` mirrors `plan.HasSideEffect(spec)`. -/
structure ProcSpec where
  kind : String
  yieldName : Option String
  sideEffect : Bool
  deriving DecidableEq, Repr

/-- Physical plan node.  `preds` holds the indices of the predecessor nodes
in the bottom-up node list of the plan (a DAG: predecessors appear earlier).
`parallelRun` is the `ParallelRunAttribute` factor and `parallelMerge` the
`ParallelMergeAttribute` factor from the output attributes, when present. -/
structure PlanNode where
  nid : String
  spec : ProcSpec
  preds : List Nat
  parallelRun : Option Nat
  parallelMerge : Option Nat
  deriving DecidableEq, Repr

instance : Inhabited PlanNode :=
  ⟨{ nid := "", spec := { kind := "", yieldName := none, sideEffect := false },
     preds := [], parallelRun := none, parallelMerge := none }⟩

/-- Physical plan: the nodes in bottom-up walk order together with the
resource hints.  `memoryBytesQuota` and `concurrencyQuota` mirror
`flux.ResourceManagement`. -/
structure ResourceManagement where
  memoryBytesQuota : Int
  concurrencyQuota : Int
  deriving DecidableEq, Repr

structure PlanSpec where
  nodes : List PlanNode
  resources : ResourceManagement
  deriving DecidableEq, Repr

/-- Node lookup by plan index.  Go navigates plan nodes through pointers,
which cannot fail, so out-of-range indices (never produced by a well-formed
walk) default to the inhabited node. -/
def nodeAt (p : PlanSpec) (i : Nat) : PlanNode :=
  p.nodes.getD i default

/-- Whether the node at index `i` has a successor in the plan: some other
node lists `i` among its predecessors (mirrors `node.Successors()`). -/
def hasSuccessor (p : PlanSpec) (i : Nat) : Bool :=
  (List.range p.nodes.length).any (fun j => (nodeAt p j).preds.contains i)

/-- Root nodes of the plan (`p.Roots`): nodes without successors. -/
def rootsCount (p : PlanSpec) : Nat :=
  ((List.range p.nodes.length).filter (fun i => ¬ hasSuccessor p i)).length

/-- Yield test used by `skipYields`: whether the procedure spec implements
`plan.YieldProcedureSpec`. -/
def isYield (nd : PlanNode) : Bool :=
  nd.spec.yieldName.isSome

/-- Resolution of yield pass-through chains, after `skipYields(pn)`:
follow `Predecessors()[0]` while the spec is a yield.  Returns `none` when a
yield node has no predecessor (Go panics on the index) or the fuel runs out;
with fuel `i + 1` the fuel never runs out on bottom-up indexed plans. -/
def skipYieldsAux (p : PlanSpec) : Nat → Nat → Option Nat
  | 0, _ => none
  | fuel + 1, i =>
    if isYield (nodeAt p i) then
      match (nodeAt p i).preds with
      | [] => none
      | q :: _ => skipYieldsAux p fuel q
    else
      some i

def skipYields (p : PlanSpec) (i : Nat) : Option Nat :=
  skipYieldsAux p (i + 1) i

/-- Option-valued map used for yield resolution over predecessor lists;
`none` as soon as one element fails to resolve. -/
def mapOpt {α β : Type} (f : α → Option β) : List α → Option (List β)
  | [] => some []
  | a :: as_ =>
    match f a with
    | none => none
    | some b =>
      match mapOpt f as_ with
      | none => none
      | some bs => some (b :: bs)

/-- Predecessors with yields resolved, after `nonYieldPredecessors(pn)`:
each predecessor is replaced by its yield-resolved node index. -/
def nonYieldPredecessors (p : PlanSpec) (nd : PlanNode) : Option (List Nat) :=
  mapOpt (skipYields p) nd.preds

/-- Parent dataset-id list of replica `i` of a node, after the loop in
`Visit` that fills `ec[i].parents`: for predecessor position `pi` and
replica offset `j < predCopies`, slot `pi*predCopies+j` holds
`datasetIDFromNodeID(pred.ID(), i+j)` where `pred` is the yield-resolved
predecessor.  Returns `none` when a yield chain fails to resolve. -/
def buildReplicaParents (p : PlanSpec) (nd : PlanNode) (predCopies : Nat)
    (i : Nat) : Option (List DatasetID) :=
  match nonYieldPredecessors p nd with
  | none => none
  | some nyp =>
    some ((nyp.map (fun pr =>
      (List.range predCopies).map (fun j =>
        datasetIDFromNodeID (nodeAt p pr).nid (i + j)))).flatten)

/-- Named terminal result sink, after `newResult(name)`.  Modelled from the
spec: the `result` implementation is not under `src/`; aborting a result
marks the named stream as failed with the given error. -/
structure Result where
  name : String
  aborted : Option FluxError
  deriving DecidableEq, Repr

def newResult (name : String) : Result :=
  { name := name, aborted := none }

/-- State accumulated by the plan visitor (`createExecutionNodeVisitor`
together with the fields of `executionState` it populates).  `nodes` maps a
plan-node index to the dataset ids of its execution replicas; `ecs` records
the parent list of every replica execution context; `transports` lists the
created producer-to-consumer edges. -/
structure VisState where
  results : List (String × Result)
  sources : List DatasetID
  nodes : List (Nat × List DatasetID)
  ecs : List (Nat × List (List DatasetID))
  transports : List (DatasetID × DatasetID)
  deriving DecidableEq, Repr

def emptyVisState : VisState :=
  { results := [], sources := [], nodes := [], ecs := [], transports := [] }

/-- Lookup in the `nodes` map.  A missing key yields the empty replica list,
exactly as a missing key in a Go map of slices yields a nil slice. -/
def lookupNodes (st : VisState) (i : Nat) : List DatasetID :=
  match st.nodes.find? (fun e => e.fst = i) with
  | some e => e.snd
  | none => []

/-- Membership test on the results map, after `v.es.results[resultName]`. -/
def resultsContain (st : VisState) (name : String) : Bool :=
  st.results.any (fun e => e.fst = name)

/-- Result registration, after `createExecutionNodeVisitor.generateResult`:
a duplicate name is an `Invalid` error and the method returns before any
mutation, so the state comes back unchanged; otherwise the result is added
to the map and attached to replica `idx` of the yield-resolved node.
The pair returned is (updated-or-unchanged state, error), mirroring the Go
mutate-and-return-error convention; the `Build` layer turns a failed
yield resolution or replica lookup into a crash. -/
def generateResult (p : PlanSpec) (st : VisState) (resultName : String)
    (nodeIdx : Nat) (idx : Nat) : Build (VisState × Option FluxError) :=
  if resultsContain st resultName then
    Build.ok (st, some
      { code := ErrCode.invalid
        msg := "tried to produce more than one result with the name " ++ resultName })
  else
    match skipYields p nodeIdx with
    | none => Build.crash
    | some target =>
      match (lookupNodes st target)[idx]? with
      | none => Build.crash
      | some _ =>
        Build.ok ({ st with results := st.results ++ [(resultName, newResult resultName)] }, none)

/-- Default yield name, after `plan.DefaultYieldName`. -/
def defaultYieldName : String := "_result"

/-- Result naming for terminal nodes, after `getResultName(node, spec,
isParallelMerge)`.  For a parallel-merge node the side-effect test uses the
spec of the single direct predecessor (the Go `node :=` inside the if block
shadows only locally), but the name, when a side effect is present, is the
identity of the terminal node itself. -/
def getResultName (p : PlanSpec) (nodeIdx : Nat) (spec : ProcSpec)
    (isParallelMerge : Bool) : Except FluxError String :=
  let node := nodeAt p nodeIdx
  if isParallelMerge ∧ node.preds.length ≠ 1 then
    Except.error
      { code := ErrCode.internal
        msg := "parallel merge must have a single predecessor" }
  else
    let spec2 := if isParallelMerge then (nodeAt p (node.preds.getD 0 0)).spec else spec
    let name := if spec2.sideEffect then node.nid else defaultYieldName
    Except.ok name

/-- Visit of one plan node, after `createExecutionNodeVisitor.Visit`.
The source and transformation registries are passed in as the lists of
registered operation kinds; the external constructors themselves are out of
scope and modelled as always succeeding.  Trigger-spec defaulting and the
stream-context bounds are omitted: they do not feed back into any state
observed here. -/
def visitNode (sourceKinds transformationKinds : List String) (p : PlanSpec)
    (idx : Nat) (st : VisState) : Build VisState :=
  let node := nodeAt p idx
  let spec := node.spec
  match spec.yieldName with
  | some yn =>
    Build.bind (generateResult p st yn idx 0) (fun r =>
      match r.snd with
      | some e => Build.fail e
      | none => Build.ok r.fst)
  | none =>
    let copies := match node.parallelRun with
      | some f => f
      | none => 1
    let isParallelMerge := node.parallelMerge.isSome
    let predCopies := match node.parallelMerge with
      | some f => f
      | none => 1
    match nonYieldPredecessors p node with
    | none => Build.crash
    | some nyp =>
      let ecs := (List.range copies).map (fun i =>
        (nyp.map (fun pr =>
          (List.range predCopies).map (fun j =>
            datasetIDFromNodeID (nodeAt p pr).nid (i + j)))).flatten)
      let replicas := (List.range copies).map (fun i => datasetIDFromNodeID node.nid i)
      let st := { st with ecs := st.ecs ++ [(idx, ecs)] }
      let afterInstantiate : Build VisState :=
        if node.preds.isEmpty then
          if ¬ sourceKinds.contains spec.kind then
            Build.fail
              { code := ErrCode.internal
                msg := "unsupported source kind " ++ spec.kind }
          else
            Build.ok { st with
              sources := st.sources ++ replicas
              nodes := st.nodes ++ [(idx, replicas)] }
        else
          if ¬ transformationKinds.contains spec.kind then
            Build.fail
              { code := ErrCode.internal
                msg := "unsupported procedure " ++ spec.kind }
          else
            let flat := ((List.range copies).map (fun i =>
              (nyp.map (fun pr =>
                (List.range predCopies).map (fun j =>
                  ((lookupNodes st pr)[i + j]?, datasetIDFromNodeID node.nid i)))).flatten)).flatten
            if flat.any (fun w => w.fst.isNone) then
              Build.crash
            else
              Build.ok { st with
                nodes := st.nodes ++ [(idx, replicas)]
                transports := st.transports ++
                  flat.filterMap (fun w => w.fst.map (fun src => (src, w.snd))) }
      Build.bind afterInstantiate (fun st2 =>
        if ¬ hasSuccessor p idx then
          match getResultName p idx spec isParallelMerge with
          | Except.error e => Build.fail e
          | Except.ok resultName =>
            Build.bind (generateResult p st2 resultName idx 0) (fun r =>
              match r.snd with
              | some e => Build.fail e
              | none => Build.ok r.fst)
        else
          Build.ok st2)

/-- Bottom-up walk of the plan, after `p.BottomUpWalk(v.Visit)`: the nodes
are visited in list order and the first error aborts the walk. -/
def bottomUpWalk (sourceKinds transformationKinds : List String)
    (p : PlanSpec) : Build VisState :=
  (List.range p.nodes.length).foldl
    (fun acc idx => Build.bind acc (visitNode sourceKinds transformationKinds p idx))
    (Build.ok emptyVisState)

/-- Largest value of a 64-bit signed integer, after `math.MaxInt64`. -/
def maxInt64 : Int := 2 ^ 63 - 1

/-- Ambient execution options carried by the execution dependencies. -/
structure ExecutionOptions where
  defaultMemoryLimit : Int
  concurrencyLimit : Int
  deriving DecidableEq, Repr

/-- Ambient context as far as `getResourceLimits` observes it: whether
execution dependencies are configured and, if so, their options. -/
structure AmbientContext where
  haveExecutionDependencies : Bool
  executionOptions : ExecutionOptions
  deriving DecidableEq, Repr

/-- Resource limits from the ambient context, after `getResourceLimits(ctx)`:
without execution dependencies the memory limit is 0 and the concurrency
limit is `math.MaxInt64`. -/
def getResourceLimits (ctx : AmbientContext) : Int × Int :=
  if ¬ ctx.haveExecutionDependencies then
    (0, maxInt64)
  else
    (ctx.executionOptions.defaultMemoryLimit, ctx.executionOptions.concurrencyLimit)

/-- Sum of the per-internal-node parallel factors computed by the
`TopDownWalk` inside `chooseDefaultResources`: source nodes (no
predecessors) are skipped, a node without the parallel-run attribute
contributes 1, a node with the attribute contributes its factor. -/
def concurrencySum (p : PlanSpec) : Int :=
  p.nodes.foldl
    (fun acc nd =>
      if nd.preds.length > 0 then
        acc + (match nd.parallelRun with
          | some f => (f : Int)
          | none => 1)
      else acc)
    0

/-- Resource defaulting, after `executionState.chooseDefaultResources`:
an unset memory quota takes the ambient default; an unset concurrency quota
defaults to the number of plan roots, except that with a positive ambient
concurrency limit it becomes the parallel-factor sum clamped to the limit
from above and to 1 from below. -/
def chooseDefaultResources (ctx : AmbientContext) (p : PlanSpec)
    (resources : ResourceManagement) : ResourceManagement :=
  let limits := getResourceLimits ctx
  let defaultMemoryLimit := limits.fst
  let concurrencyLimit := limits.snd
  let resources :=
    if resources.memoryBytesQuota = 0 then
      { resources with memoryBytesQuota := defaultMemoryLimit }
    else resources
  if resources.concurrencyQuota = 0 then
    if concurrencyLimit > 0 then
      let cq := concurrencySum p
      let cq := if cq > concurrencyLimit then concurrencyLimit
        else if cq = 0 then 1 else cq
      { resources with concurrencyQuota := cq }
    else
      { resources with concurrencyQuota := (rootsCount p : Int) }
  else resources

/-- Validation, after `executionState.validate`: a zero concurrency quota is
an `Invalid` error. -/
def validateResources (resources : ResourceManagement) : Option FluxError :=
  if resources.concurrencyQuota = 0 then
    some
      { code := ErrCode.invalid
        msg := "execution state must have a non-zero concurrency quota" }
  else none

/-- Execution state as observed after construction and during the run. -/
structure ExecState where
  results : List (String × Result)
  sources : List DatasetID
  nodes : List (Nat × List DatasetID)
  ecs : List (Nat × List (List DatasetID))
  transports : List (DatasetID × DatasetID)
  resources : ResourceManagement
  cancelled : Bool
  deriving DecidableEq, Repr

/-- Construction of the execution state, after
`executor.createExecutionState`: walk the plan bottom-up, choose default
resources, then validate; a validation error is wrapped with the `Invalid`
classification. -/
def createExecutionState (sourceKinds transformationKinds : List String)
    (ctx : AmbientContext) (p : PlanSpec) : Build ExecState :=
  Build.bind (bottomUpWalk sourceKinds transformationKinds p) (fun v =>
    let resources := chooseDefaultResources ctx p p.resources
    match validateResources resources with
    | some e => Build.fail (wrapErr ErrCode.invalid "execution state" e)
    | none =>
      Build.ok
        { results := v.results
          sources := v.sources
          nodes := v.nodes
          ecs := v.ecs
          transports := v.transports
          resources := resources
          cancelled := false })

/-- Abort, after `executionState.abort(err)`: every result currently in the
results map is marked failed with `err` and the run context is cancelled;
no map entry is added or removed. -/
def abortState (es : ExecState) (err : FluxError) : ExecState :=
  { es with
    results := es.results.map (fun e => (e.fst, { e.snd with aborted := some err }))
    cancelled := true }

/-- Observable outcome of the concurrent run phase: either every transport
finishes cleanly, or the watcher observes a cancellation or dispatcher
error.  Modelled from the spec: the goroutine scheduling inside
`executionState.do` is concurrency and is abstracted to the first failure
the watcher acts upon, which it routes to `abort`. -/
inductive RunOutcome where
  | success
  | failed (e : FluxError)
  deriving DecidableEq, Repr

/-- Run phase, after `executionState.do`: a watcher-observed failure aborts
the state; success leaves it untouched.  `do` never reports back to the
caller of `Execute`. -/
def doRun (es : ExecState) (outcome : RunOutcome) : ExecState :=
  match outcome with
  | RunOutcome.success => es
  | RunOutcome.failed e => abortState es e

/-- Top-level entry point, after `executor.Execute`: a failed construction
is wrapped with `Inherit` (keeping the classification) and returned; on
success the run phase starts and the results map is handed to the caller
with a nil error. -/
def executeE (sourceKinds transformationKinds : List String)
    (ctx : AmbientContext) (p : PlanSpec) (outcome : RunOutcome) :
    Build ExecState :=
  match createExecutionState sourceKinds transformationKinds ctx p with
  | Build.fail e => Build.fail (wrapErr ErrCode.inherit "failed to initialize execute state" e)
  | Build.crash => Build.crash
  | Build.ok es => Build.ok (doRun es outcome)

/-- Identity of one of the two parents of the diff transformation.  The
`parentState` map built by `NewDiffTransformation` holds exactly the keys
`wantID` and `gotID`, which are distinct dataset ids of the two plan
parents; the map is modelled by its two slots. -/
inductive ParentId where
  | want
  | got
  deriving DecidableEq, Repr

/-- Per-parent state of the diff transformation, after `diffParentState`:
Go zero values give mark 0, processing 0 and finished false. -/
structure DiffParentState where
  mark : Int
  processing : Int
  finished : Bool
  deriving DecidableEq, Repr

def initDiffParentState : DiffParentState :=
  { mark := 0, processing := 0, finished := false }

/-- Entry retained in the diff input cache: the group key of a buffered
table together with the parent it came from (the `id` field of the stored
`tableBuffer`). -/
structure GroupEntry where
  key : Nat
  fromWant : Bool
  deriving DecidableEq, Repr

/-- Two-parent diff transformation, after `DiffTransformation`.  The table
contents and the diff computation on them involve external builders and
floating-point comparison, so the per-entry outcome of `t.diff` on a
retained buffer is abstracted into `diffFn`; every claim below concerns the
watermark / finish protocol, which is independent of that outcome.  The
`forwarded*` lists record the calls the transformation makes on its own
dataset `t.d`, in order. -/
structure DiffTransformation where
  wantState : DiffParentState
  gotState : DiffParentState
  inputCache : List GroupEntry
  diffFn : GroupEntry → Option FluxError
  forwardedWatermarks : List Int
  forwardedProcessing : List Int
  forwardedFinishes : List (Option FluxError)

def newDiffTransformation (diffFn : GroupEntry → Option FluxError) :
    DiffTransformation :=
  { wantState := initDiffParentState
    gotState := initDiffParentState
    inputCache := []
    diffFn := diffFn
    forwardedWatermarks := []
    forwardedProcessing := []
    forwardedFinishes := [] }

def DiffTransformation.parentState (t : DiffTransformation) :
    ParentId → DiffParentState
  | ParentId.want => t.wantState
  | ParentId.got => t.gotState

def DiffTransformation.setParentState (t : DiffTransformation)
    (id : ParentId) (s : DiffParentState) : DiffTransformation :=
  match id with
  | ParentId.want => { t with wantState := s }
  | ParentId.got => { t with gotState := s }

/-- Minimum-mark loop of `UpdateWatermark`: start from `math.MaxInt64` and
take every parent mark that is smaller.  The Go map iteration order is
unspecified; the minimum is iteration-order independent, and the two
entries are visited want-then-got here. -/
def DiffTransformation.watermarkMin (t : DiffTransformation) : Int :=
  let m := maxInt64
  let m := if t.wantState.mark < m then t.wantState.mark else m
  let m := if t.gotState.mark < m then t.gotState.mark else m
  m

/-- Watermark update, after `DiffTransformation.UpdateWatermark`: store the
mark for the reporting parent, then forward the minimum over all parent
marks to the dataset. -/
def DiffTransformation.updateWatermark (t : DiffTransformation)
    (id : ParentId) (mark : Int) : DiffTransformation :=
  let t := t.setParentState id { t.parentState id with mark := mark }
  { t with forwardedWatermarks := t.forwardedWatermarks ++ [t.watermarkMin] }

/-- Short-circuiting iteration of `RandomAccessGroupLookup.Range` over the
retained entries, as used by `Finish`: apply the diff to each entry and
stop at the first error.  Modelled from the spec for the lookup container
itself (it is not under `src/`): `Range` visits every retained entry and
returns the first error produced. -/
def rangeFlush (f : GroupEntry → Option FluxError) :
    List GroupEntry → Option FluxError
  | [] => none
  | e :: es =>
    match f e with
    | some err => some err
    | none => rangeFlush f es

/-- Finish, after `DiffTransformation.Finish(id, err)`: mark the reporting
parent finished; forward `err` to the dataset immediately when it is
non-nil; when every parent has finished, flush the retained input cache
through the diff and forward the resulting error (nil included) to the
dataset. -/
def DiffTransformation.finish (t : DiffTransformation) (id : ParentId)
    (err : Option FluxError) : DiffTransformation :=
  let t := t.setParentState id { t.parentState id with finished := true }
  let t :=
    match err with
    | some _ => { t with forwardedFinishes := t.forwardedFinishes ++ [err] }
    | none => t
  let finished := t.wantState.finished && t.gotState.finished
  if finished then
    let err2 := rangeFlush t.diffFn t.inputCache
    { t with forwardedFinishes := t.forwardedFinishes ++ [err2] }
  else t

/-- Quantile t-digest aggregate, after `QuantileAgg`.  The digest contents
are irrelevant to allocator accounting, so the free list is represented by
its length and capacity; `bytes` stands for the external
`tdigest.ByteSizeForCompression(compression)`; `accounted` is the running
sum of all `mem.Account` calls made for digests; `outstanding` counts the
`QuantileAggState` values created and not yet closed. -/
structure QuantileAgg where
  bytes : Int
  capacity : Nat
  freeLen : Nat
  outstanding : Nat
  accounted : Int
  deriving DecidableEq, Repr

/-- Construction, after `NewQuantileAgg`: an empty free list with capacity
`size` and no accounting yet. -/
def newQuantileAgg (bytes : Int) (size : Nat) : QuantileAgg :=
  { bytes := bytes, capacity := size, freeLen := 0, outstanding := 0, accounted := 0 }

/-- State creation, after `QuantileAgg.NewFloatAgg` (also reached from
`NewIntAgg` and `NewUIntAgg`): reuse a digest from the free list when one
is available, otherwise account `bytes` and build a fresh digest. -/
def QuantileAgg.newFloatAgg (a : QuantileAgg) : QuantileAgg :=
  if 0 < a.freeLen then
    { a with freeLen := a.freeLen - 1, outstanding := a.outstanding + 1 }
  else
    { a with accounted := a.accounted + a.bytes, outstanding := a.outstanding + 1 }

/-- Digest release, after `QuantileAgg.pushFreeDigest` on a non-nil digest:
keep the digest on the free list when below capacity, otherwise account
`-bytes`. -/
def QuantileAgg.pushFreeDigest (a : QuantileAgg) : QuantileAgg :=
  if a.freeLen < a.capacity then
    { a with freeLen := a.freeLen + 1 }
  else
    { a with accounted := a.accounted - a.bytes }

/-- State close, after `QuantileAggState.Close`: the state hands its digest
back through `pushFreeDigest`. -/
def QuantileAgg.stateClose (a : QuantileAgg) : QuantileAgg :=
  { a.pushFreeDigest with outstanding := a.outstanding - 1 }

/-- Aggregate close, after `QuantileAgg.Close`: account `-bytes` once per
digest retained on the free list, then drop the list. -/
def QuantileAgg.close (a : QuantileAgg) : QuantileAgg :=
  { a with accounted := a.accounted - a.bytes * (a.freeLen : Int), freeLen := 0 }

/-- Operations on the aggregate between construction and `Close`. -/
inductive AggOp where
  | newAgg
  | closeState
  deriving DecidableEq, Repr

def applyAggOp (a : QuantileAgg) : AggOp → QuantileAgg
  | AggOp.newAgg => a.newFloatAgg
  | AggOp.closeState => a.stateClose

def runAggOps (a : QuantileAgg) (ops : List AggOp) : QuantileAgg :=
  ops.foldl applyAggOp a

def countNew (ops : List AggOp) : Nat :=
  (ops.filter (fun o => o = AggOp.newAgg)).length

def countClose (ops : List AggOp) : Nat :=
  (ops.filter (fun o => o = AggOp.closeState)).length

/-- Validity of an operation sequence: a state can only be closed after it
was created, so no prefix closes more states than were created. -/
def ValidAggOps (ops : List AggOp) : Prop :=
  ∀ k, countClose (ops.take k) ≤ countNew (ops.take k)

instance : DecidablePred ValidAggOps := fun ops =>
  decidable_of_iff
    ((List.range (ops.length + 1)).all
      (fun k => decide (countClose (ops.take k) ≤ countNew (ops.take k))) = true)
    (by
      rw [List.all_eq_true]
      simp only [List.mem_range, decide_eq_true_eq]
      unfold ValidAggOps
      constructor
      · intro h k
        by_cases hk : k ≤ ops.length
        · exact h k (Nat.lt_succ_of_le hk)
        · have h1 := h ops.length (Nat.lt_succ_self _)
          have e1 : ops.take k = ops := List.take_of_length_le (Nat.le_of_not_le hk)
          have e2 : ops.take ops.length = ops := List.take_of_length_le (le_refl _)
          rw [e1]
          exact e2 ▸ h1
      · intro h k _
        exact h k)

/-- One batch of the legacy limit loop, after the body of the closure in
`limitTransformation.limitTable`: with remaining budget `n` and remaining
offset, either skip the batch (budget exhausted or batch within the
offset), or emit the rows `[start, stop)` of the batch — both the
`Retain` full-array case and the `arrow.Slice` case of the Go code emit
exactly that row range.  Rows are abstract list elements: every column is
sliced with the same bounds, so a batch is its row list. -/
def limitDoBatch {α : Type} (n offset : Int) (cr : List α) :
    (Int × Int) × Option (List α) :=
  if n ≤ 0 then
    ((n, offset), none)
  else if (cr.length : Int) ≤ offset then
    ((n, offset - cr.length), none)
  else
    let start := offset
    let stop : Int := cr.length
    let count := stop - start
    let count2 := if count > n then n else count
    let stop2 := if count > n then start + count2 else stop
    ((n - count2, 0), some ((cr.drop start.toNat).take (stop2 - start).toNat))

/-- Rows written by `limitTransformation.limitTable` over the stream of
batches of one table, in order: the per-batch loop threaded through the
local `n` and `offset` copies, collecting only the batches actually passed
to `w.Write`. -/
def limitTable {α : Type} : Int → Int → List (List α) → List (List α)
  | _, _, [] => []
  | n, offset, cr :: crs =>
    match limitDoBatch n offset cr with
    | ((n2, off2), none) => limitTable n2 off2 crs
    | ((n2, off2), some w) => w :: limitTable n2 off2 crs

/-- One chunk of the narrow limit transformation, after
`limitTransformationAdapter.processChunk`: an exhausted budget or an empty
chunk emits an explicitly empty chunk downstream, a chunk inside the
offset emits nothing, and otherwise the same `[start, stop)` slice as the
legacy code is emitted. -/
def processChunk {α : Type} (n offset : Int) (chunk : List α) :
    (Int × Int) × Option (List α) :=
  if n ≤ 0 ∨ chunk.length = 0 then
    ((n, offset), some [])
  else if (chunk.length : Int) ≤ offset then
    ((n, offset - chunk.length), none)
  else
    let start := offset
    let stop : Int := chunk.length
    let count := stop - start
    let count2 := if count > n then n else count
    let stop2 := if count > n then start + count2 else stop
    ((n - count2, 0), some ((chunk.drop start.toNat).take (stop2 - start).toNat))

/-- Chunks emitted downstream by the narrow limit transformation over a
stream of chunks, threading the `limitState` exactly as consecutive
`Process` calls do. -/
def narrowProcess {α : Type} : Int → Int → List (List α) → List (List α)
  | _, _, [] => []
  | n, offset, chunk :: chunks =>
    match processChunk n offset chunk with
    | ((n2, off2), none) => narrowProcess n2 off2 chunks
    | ((n2, off2), some w) => w :: narrowProcess n2 off2 chunks

lemma concurrencySum_aux (l : List PlanNode) (acc : Int) :
    acc ≤ l.foldl
      (fun acc nd =>
        if nd.preds.length > 0 then
          acc + (match nd.parallelRun with
            | some f => (f : Int)
            | none => 1)
        else acc)
      acc := by
  induction l generalizing acc with
  | nil => simp
  | cons nd rest ih =>
    refine le_trans ?_ (ih _)
    dsimp only
    split
    · have h2 : (0 : Int) ≤ (match nd.parallelRun with
        | some f => (f : Int)
        | none => 1) := by
        cases nd.parallelRun <;> simp
      omega
    · exact le_refl _

lemma concurrencySum_nonneg (p : PlanSpec) : 0 ≤ concurrencySum p :=
  concurrencySum_aux p.nodes 0

/-- C1: for a plan whose `ConcurrencyQuota` is unset (0), the resolved
quota defaults to the number of plan roots when no positive ambient
concurrency limit is configured; with a positive ambient limit `L` it is the
sum of the per-internal-node parallel factors (source nodes excluded, 1
when the attribute is absent), clamped to at most `L` and at least 1. -/
theorem quota_defaulting (ctx : AmbientContext) (p : PlanSpec)
    (h0 : p.resources.concurrencyQuota = 0) :
    ((getResourceLimits ctx).snd ≤ 0 →
      (chooseDefaultResources ctx p p.resources).concurrencyQuota = (rootsCount p : Int)) ∧
    (0 < (getResourceLimits ctx).snd →
      (chooseDefaultResources ctx p p.resources).concurrencyQuota =
        max 1 (min (concurrencySum p) (getResourceLimits ctx).snd)) := by
  have hsum := concurrencySum_nonneg p
  unfold chooseDefaultResources
  constructor
  · intro hL
    simp only [h0]
    split <;> split_ifs <;> simp_all <;> omega
  · intro hL
    simp only [h0]
    split <;> split_ifs <;> simp_all <;> omega

/-- Concrete plan used by the C1 witness: a source feeding a 4-way
parallel transformation, with the concurrency quota unset. -/
def quotaWitnessPlan : PlanSpec :=
  { nodes :=
      [ { nid := "src", spec := { kind := "from", yieldName := none, sideEffect := false },
          preds := [], parallelRun := none, parallelMerge := none }
      , { nid := "filter", spec := { kind := "filter", yieldName := none, sideEffect := false },
          preds := [0], parallelRun := some 4, parallelMerge := none } ]
    resources := { memoryBytesQuota := 0, concurrencyQuota := 0 } }

/-- Ambient context used by the C1 witness: a configured concurrency limit
of 1. -/
def quotaWitnessCtx : AmbientContext :=
  { haveExecutionDependencies := true
    executionOptions := { defaultMemoryLimit := 0, concurrencyLimit := 1 } }

/-- C1 witness: the parallel-factor sum is 4, the ambient limit 1, and the
resolved quota evaluates to `max 1 (min 4 1) = 1`. -/
theorem quota_defaulting_witness :
    quotaWitnessPlan.resources.concurrencyQuota = 0 ∧
    (chooseDefaultResources quotaWitnessCtx quotaWitnessPlan
      quotaWitnessPlan.resources).concurrencyQuota = 1 := by
  refine ⟨rfl, ?_⟩
  have h := (quota_defaulting quotaWitnessCtx quotaWitnessPlan rfl).2 (by decide)
  rw [h]
  decide

/-- C5: registering a result under a name already present in the results
map fails with an `Invalid` error and leaves the results map unchanged
(the visitor returns the state exactly as it received it). -/
theorem result_name_uniqueness (p : PlanSpec) (st : VisState) (name : String)
    (nodeIdx idx : Nat) (hdup : resultsContain st name = true) :
    ∃ e, generateResult p st name nodeIdx idx = Build.ok (st, some e) ∧
      e.code = ErrCode.invalid := by
  refine ⟨{ code := ErrCode.invalid
            msg := "tried to produce more than one result with the name " ++ name }, ?_, rfl⟩
  simp [generateResult, hdup]

/-- C5 witness: a second result named `out` collides with a registered
`out` result and the state survives unchanged. -/
theorem result_name_uniqueness_witness :
    let st : VisState :=
      { results := [("out", newResult "out")], sources := [], nodes := []
        ecs := [], transports := [] }
    let p : PlanSpec := { nodes := [], resources := { memoryBytesQuota := 0, concurrencyQuota := 0 } }
    resultsContain st "out" = true ∧
    ∃ e, generateResult p st "out" 0 0 = Build.ok (st, some e) ∧
      e.code = ErrCode.invalid := by
  exact ⟨rfl, result_name_uniqueness _ _ _ 0 0 rfl⟩

/-- C6: `getResultName` yields the default yield name unless the relevant
spec (the nodes own spec, or the spec of the single direct predecessor for
a parallel-merge node) has a side effect, in which case the name is the
identity of the terminal node itself; a parallel-merge node whose
predecessor count differs from 1 makes naming fail with an error. -/
theorem terminal_result_naming (p : PlanSpec) (nodeIdx : Nat)
    (spec : ProcSpec) (merge : Bool) :
    (merge = true → (nodeAt p nodeIdx).preds.length ≠ 1 →
      ∃ e, getResultName p nodeIdx spec merge = Except.error e) ∧
    (merge = false →
      getResultName p nodeIdx spec merge =
        Except.ok (if spec.sideEffect then (nodeAt p nodeIdx).nid else defaultYieldName)) ∧
    (merge = true → (nodeAt p nodeIdx).preds.length = 1 →
      getResultName p nodeIdx spec merge =
        Except.ok
          (if (nodeAt p ((nodeAt p nodeIdx).preds.getD 0 0)).spec.sideEffect then
            (nodeAt p nodeIdx).nid
          else defaultYieldName)) := by
  refine ⟨?_, ?_, ?_⟩
  · intro hm hlen
    refine ⟨{ code := ErrCode.internal
              msg := "parallel merge must have a single predecessor" }, ?_⟩
    simp [getResultName, hm, hlen]
  · intro hm
    unfold getResultName
    subst hm
    simp
  · intro hm hlen
    unfold getResultName
    subst hm
    rw [if_neg (by simp [hlen])]
    simp

/-- C6 witness: a parallel-merge terminal above a side-effecting
predecessor is named after the terminal node itself, and a merge node with
two predecessors fails. -/
theorem terminal_result_naming_witness :
    let eff : ProcSpec := { kind := "to", yieldName := none, sideEffect := true }
    let p : PlanSpec :=
      { nodes :=
          [ { nid := "to1", spec := eff, preds := [], parallelRun := none, parallelMerge := none }
          , { nid := "m", spec := { kind := "merge", yieldName := none, sideEffect := false },
              preds := [0], parallelRun := none, parallelMerge := some 2 } ]
        resources := { memoryBytesQuota := 0, concurrencyQuota := 0 } }
    (nodeAt p 1).preds.length = 1 ∧
    getResultName p 1 (nodeAt p 1).spec true = Except.ok "m" := by
  refine ⟨rfl, ?_⟩
  have h := (terminal_result_naming
    { nodes :=
        [ { nid := "to1", spec := { kind := "to", yieldName := none, sideEffect := true },
            preds := [], parallelRun := none, parallelMerge := none }
        , { nid := "m", spec := { kind := "merge", yieldName := none, sideEffect := false },
            preds := [0], parallelRun := none, parallelMerge := some 2 } ]
      resources := { memoryBytesQuota := 0, concurrencyQuota := 0 } }
    1 { kind := "merge", yieldName := none, sideEffect := false } true).2.2
    rfl rfl
  simpa using h

/-- C8: `abort(err)` marks every result currently registered in the results
map as failed with `err`, cancels the run context, and neither adds nor
removes map entries. -/
theorem abort_postcondition (es : ExecState) (err : FluxError) :
    (abortState es err).results.map Prod.fst = es.results.map Prod.fst ∧
    (abortState es err).results.length = es.results.length ∧
    (∀ e, e ∈ (abortState es err).results → e.snd.aborted = some err) ∧
    (abortState es err).cancelled = true := by
  refine ⟨?_, ?_, ?_, rfl⟩
  · simp [abortState]
  · simp [abortState]
  · intro e he
    simp only [abortState, List.mem_map] at he
    obtain ⟨a, _, rfl⟩ := he
    rfl

/-- C8 witness: aborting a state with two registered results marks both
failed and cancels the context. -/
theorem abort_postcondition_witness :
    let es : ExecState :=
      { results := [("a", newResult "a"), ("b", newResult "b")]
        sources := [], nodes := [], ecs := [], transports := []
        resources := { memoryBytesQuota := 0, concurrencyQuota := 1 }
        cancelled := false }
    let err : FluxError := { code := ErrCode.internal, msg := "boom" }
    (∀ e, e ∈ (abortState es err).results → e.snd.aborted = some err) ∧
    (abortState es err).cancelled = true := by
  exact ⟨(abort_postcondition _ _).2.2.1, (abort_postcondition _ _).2.2.2⟩

/-- Fresh diff transformation used for the C2 scenario: no retained input
and a flush that finds nothing to report. -/
def diffScenario : DiffTransformation := newDiffTransformation (fun _ => none)

/-- Error delivered by the second parent in the C2 scenario. -/
def diffScenarioErr : FluxError := { code := ErrCode.internal, msg := "boom" }

/-- C2 counterexample: on `Finish(want, nil)` then `Finish(got, err)` the
diff transformation forwards TWO `Finish` calls to its dataset — the error
immediately, then the flush result — so exactly one `Finish` carrying
`err` is not what reaches the dataset. -/
theorem diff_finish_counterexample :
    ((diffScenario.finish ParentId.want none).finish ParentId.got
        (some diffScenarioErr)).forwardedFinishes = [some diffScenarioErr, none] ∧
    ((diffScenario.finish ParentId.want none).finish ParentId.got
        (some diffScenarioErr)).forwardedFinishes.length ≠ 1 := by
  exact ⟨rfl, by decide⟩

/-- C2 (amended): after `Finish(parentA, nil)` the node forwards nothing;
after the subsequent `Finish(parentB, err)` with non-nil `err` it forwards
exactly two `Finish` calls, both once both parents have reported: the
first carries `err` and the second carries the result of flushing the
retained cross-parent state (nil when nothing was retained).  In general a
non-nil parent error is forwarded immediately rather than held until all
parents report. -/
theorem diff_finish_amended (t : DiffTransformation) (e : FluxError)
    (_hw : t.wantState.finished = false) (hg : t.gotState.finished = false)
    (hc : t.inputCache = []) (hf : t.forwardedFinishes = []) :
    (t.finish ParentId.want none).forwardedFinishes = [] ∧
    ((t.finish ParentId.want none).finish ParentId.got (some e)).forwardedFinishes
      = [some e, none] := by
  unfold DiffTransformation.finish
  simp [DiffTransformation.setParentState, DiffTransformation.parentState,
    hg, hf, hc, rangeFlush]

/-- C2 witness for the amended theorem, at the concrete fresh scenario. -/
theorem diff_finish_amended_witness :
    (diffScenario.finish ParentId.want none).forwardedFinishes = [] ∧
    ((diffScenario.finish ParentId.want none).finish ParentId.got
        (some diffScenarioErr)).forwardedFinishes = [some diffScenarioErr, none] :=
  diff_finish_amended diffScenario diffScenarioErr rfl rfl rfl rfl

lemma mapOpt_length {α β : Type} (f : α → Option β) (l : List α)
    (bs : List β) (h : mapOpt f l = some bs) : bs.length = l.length := by
  induction l generalizing bs with
  | nil =>
    simp [mapOpt] at h
    simp [← h]
  | cons a rest ih =>
    unfold mapOpt at h
    cases hfa : f a with
    | none => rw [hfa] at h; exact absurd h (by simp)
    | some b =>
      rw [hfa] at h
      cases hrest : mapOpt f rest with
      | none => rw [hrest] at h; exact absurd h (by simp)
      | some bs2 =>
        rw [hrest] at h
        simp at h
        simp [← h, ih bs2 hrest]

lemma flatten_const_length {α β : Type} (l : List α) (g : α → Nat → β) (pc : Nat) :
    ((l.map (fun a => (List.range pc).map (g a))).flatten).length = l.length * pc := by
  induction l with
  | nil => simp
  | cons a rest ih =>
    simp [ih]
    ring

lemma range_one_eq : List.range 1 = [0] := by decide

/-- Concrete plan for the C3 counterexample: a non-parallel source feeding
a transformation with parallel-run factor 2. -/
def wiringPlan : PlanSpec :=
  { nodes :=
      [ { nid := "src", spec := { kind := "from", yieldName := none, sideEffect := false },
          preds := [], parallelRun := none, parallelMerge := none }
      , { nid := "filter", spec := { kind := "filter", yieldName := none, sideEffect := false },
          preds := [0], parallelRun := some 2, parallelMerge := none } ]
    resources := { memoryBytesQuota := 0, concurrencyQuota := 0 } }

/-- Second node of `wiringPlan` (the parallel-run consumer). -/
def wiringNode : PlanNode :=
  { nid := "filter", spec := { kind := "filter", yieldName := none, sideEffect := false },
    preds := [0], parallelRun := some 2, parallelMerge := none }

/-- C3 counterexample: with factor 2 over a single non-parallel
predecessor, replica 1 builds the parent list referencing predecessor
instance 1, not the predecessor single instance 0. -/
theorem replica_wiring_counterexample :
    buildReplicaParents wiringPlan wiringNode 1 1
      = some [datasetIDFromNodeID "src" 1] ∧
    datasetIDFromNodeID "src" 1 ≠ datasetIDFromNodeID "src" 0 := by
  exact ⟨rfl, by decide⟩

/-- C3 (amended): for a parallel-run node with a single resolved
predecessor and no parallel-merge attribute, replica `i` has a parent list
of length 1 referencing predecessor replica `i` (the predecessor single
instance exactly when `i = 0`); for a parallel-merge node with predecessor
factor `F`, the single replica (index 0) lists the `F` predecessor
replicas 0..F-1 in order; and in every case the parent-list length is the
number of yield-resolved predecessors times the predecessor replica
factor. -/
theorem replica_wiring_amended (p : PlanSpec) (nd : PlanNode) (q r F i : Nat)
    (hpreds : nd.preds = [q]) (hr : skipYields p q = some r) :
    buildReplicaParents p nd 1 i = some [datasetIDFromNodeID (nodeAt p r).nid i] ∧
    buildReplicaParents p nd F 0 =
      some ((List.range F).map (fun j => datasetIDFromNodeID (nodeAt p r).nid j)) ∧
    (∀ (nd2 : PlanNode) (pc i2 : Nat) (parents : List DatasetID),
      buildReplicaParents p nd2 pc i2 = some parents →
      parents.length = nd2.preds.length * pc) := by
  refine ⟨?_, ?_, ?_⟩
  · simp [buildReplicaParents, nonYieldPredecessors, hpreds, mapOpt, hr, range_one_eq]
  · simp [buildReplicaParents, nonYieldPredecessors, hpreds, mapOpt, hr]
  · intro nd2 pc i2 parents h
    unfold buildReplicaParents at h
    cases hny : nonYieldPredecessors p nd2 with
    | none => rw [hny] at h; exact absurd h (by simp)
    | some nyp =>
      rw [hny] at h
      simp at h
      have hlen := mapOpt_length (skipYields p) nd2.preds nyp hny
      rw [← h]
      rw [flatten_const_length nyp (fun pr j => datasetIDFromNodeID (nodeAt p pr).nid (i2 + j)) pc]
      rw [hlen]

/-- C3 witness for the amended theorem: in `wiringPlan`, replica 1 of the
factor-2 node references predecessor replica 1, and a 3-way merge wiring
lists predecessor replicas 0, 1, 2. -/
theorem replica_wiring_amended_witness :
    buildReplicaParents wiringPlan wiringNode 1 1
      = some [datasetIDFromNodeID (nodeAt wiringPlan 0).nid 1] ∧
    buildReplicaParents wiringPlan wiringNode 3 0 =
      some ((List.range 3).map (fun j => datasetIDFromNodeID (nodeAt wiringPlan 0).nid j)) := by
  have h := replica_wiring_amended wiringPlan wiringNode 0 0 3 1 rfl rfl
  exact ⟨h.1, h.2.1⟩

lemma watermarkMin_eq (t : DiffTransformation)
    (hw : t.wantState.mark ≤ maxInt64) (hg : t.gotState.mark ≤ maxInt64) :
    t.watermarkMin = min t.wantState.mark t.gotState.mark := by
  unfold DiffTransformation.watermarkMin
  rw [min_def]
  dsimp only
  split_ifs <;> omega

/-- C4: every `UpdateWatermark(id, m)` stores `m` for the reporting parent
and forwards exactly the minimum of the last-known marks of both parents;
the forwarded value never exceeds either parent last-known mark; and in
the two-parent scenario reporting `t1` then `t2 < t1` the value forwarded
after both updates is `min(t1, t2) = t2`.  Marks are `int64` values, hence
the `maxInt64` bounds. -/
theorem watermark_merge (t : DiffTransformation) (id : ParentId)
    (m t1 t2 : Int)
    (hw : t.wantState.mark ≤ maxInt64) (hg : t.gotState.mark ≤ maxInt64)
    (hm : m ≤ maxInt64) (h1 : t1 ≤ maxInt64) (_h2 : t2 ≤ maxInt64)
    (h21 : t2 < t1) :
    ((t.updateWatermark id m).forwardedWatermarks =
      t.forwardedWatermarks ++
        [min (t.updateWatermark id m).wantState.mark
             (t.updateWatermark id m).gotState.mark]) ∧
    (∀ q : ParentId,
      min (t.updateWatermark id m).wantState.mark
          (t.updateWatermark id m).gotState.mark ≤
        ((t.updateWatermark id m).parentState q).mark) ∧
    (((t.updateWatermark ParentId.want t1).updateWatermark ParentId.got
        t2).forwardedWatermarks.getLast? = some t2) := by
  refine ⟨?_, ?_, ?_⟩
  · cases id <;>
      (unfold DiffTransformation.updateWatermark DiffTransformation.watermarkMin
       simp only [DiffTransformation.setParentState, DiffTransformation.parentState]
       congr 1
       simp only [List.cons.injEq, and_true]
       rw [min_def]
       split_ifs <;> omega)
  · intro q
    cases q <;> simp [DiffTransformation.parentState]
  · unfold DiffTransformation.updateWatermark DiffTransformation.watermarkMin
    simp only [DiffTransformation.setParentState, DiffTransformation.parentState]
    rw [List.getLast?_append_of_ne_nil _ (by simp)]
    simp only [List.getLast?_singleton, Option.some.injEq]
    split_ifs <;> omega

/-- C4 witness: from a fresh diff transformation, reporting 10 on the want
parent then 5 on the got parent forwards 5 last. -/
theorem watermark_merge_witness :
    ((diffScenario.updateWatermark ParentId.want 10).updateWatermark
        ParentId.got 5).forwardedWatermarks.getLast? = some 5 := by
  exact (watermark_merge diffScenario ParentId.want 0 10 5
    (by decide) (by decide) (by decide) (by decide) (by decide) (by decide)).2.2

/-- C7: `Execute` returns a non-nil error exactly when graph construction
(the bottom-up walk) or validation (a zero resolved concurrency quota
after defaulting) fails — for every run-phase outcome, so run-time
failures never surface in the return value — and a zero resolved quota
yields an error classified `Invalid`, produced before the run phase
starts. -/
theorem execute_error_iff (sks tks : List String) (ctx : AmbientContext)
    (p : PlanSpec) :
    (∀ outcome, (executeE sks tks ctx p outcome).isFail ↔
      ((bottomUpWalk sks tks p).isFail ∨
        (∃ v, bottomUpWalk sks tks p = Build.ok v ∧
          (chooseDefaultResources ctx p p.resources).concurrencyQuota = 0))) ∧
    (∀ outcome v, bottomUpWalk sks tks p = Build.ok v →
      (chooseDefaultResources ctx p p.resources).concurrencyQuota = 0 →
      ∃ e, executeE sks tks ctx p outcome = Build.fail e ∧
        e.code = ErrCode.invalid) := by
  constructor
  · intro outcome
    unfold executeE createExecutionState
    cases hw : bottomUpWalk sks tks p with
    | ok v =>
      by_cases hq : (chooseDefaultResources ctx p p.resources).concurrencyQuota = 0
      · simp [Build.bind, validateResources, hq, Build.isFail, hw]
      · simp [Build.bind, validateResources, hq, Build.isFail, hw]
    | fail e => simp [Build.bind, Build.isFail]
    | crash => simp [Build.bind, Build.isFail]
  · intro outcome v hwv hq
    unfold executeE createExecutionState
    rw [hwv]
    simp [Build.bind, validateResources, hq, wrapErr]

/-- Ambient context used by the C7 witness: execution dependencies with a
zero concurrency limit, so the unset quota falls back to the root count. -/
def executeWitnessCtx : AmbientContext :=
  { haveExecutionDependencies := true
    executionOptions := { defaultMemoryLimit := 0, concurrencyLimit := 0 } }

/-- Plan used by the C7 witness: no nodes, hence zero roots and a resolved
concurrency quota of 0. -/
def executeWitnessPlan : PlanSpec :=
  { nodes := [], resources := { memoryBytesQuota := 0, concurrencyQuota := 0 } }

/-- C7 witness: on the empty plan with an ambient limit of zero, the
resolved quota is 0 and `Execute` fails with an `Invalid` error for the
successful run outcome. -/
theorem execute_error_iff_witness :
    (chooseDefaultResources executeWitnessCtx executeWitnessPlan
      executeWitnessPlan.resources).concurrencyQuota = 0 ∧
    ∃ e, executeE [] [] executeWitnessCtx executeWitnessPlan RunOutcome.success
        = Build.fail e ∧ e.code = ErrCode.invalid := by
  refine ⟨by decide, ?_⟩
  exact (execute_error_iff [] [] executeWitnessCtx executeWitnessPlan).2
    RunOutcome.success emptyVisState (by decide) (by decide)

lemma countNew_cons (op : AggOp) (l : List AggOp) :
    countNew (op :: l) = (if op = AggOp.newAgg then 1 else 0) + countNew l := by
  cases op <;> (simp [countNew, List.filter_cons]; try omega)

lemma countClose_cons (op : AggOp) (l : List AggOp) :
    countClose (op :: l) = (if op = AggOp.closeState then 1 else 0) + countClose l := by
  cases op <;> (simp [countClose, List.filter_cons]; try omega)

lemma runAggOps_invariant (ops : List AggOp) (a : QuantileAgg)
    (hacc : a.accounted = a.bytes * ((a.outstanding : Int) + (a.freeLen : Int)))
    (hvalid : ∀ k, countClose (ops.take k) ≤ a.outstanding + countNew (ops.take k)) :
    (runAggOps a ops).bytes = a.bytes ∧
    (runAggOps a ops).accounted =
      a.bytes * (((runAggOps a ops).outstanding : Int) +
        ((runAggOps a ops).freeLen : Int)) ∧
    (runAggOps a ops).outstanding + countClose ops =
      a.outstanding + countNew ops := by
  induction ops generalizing a with
  | nil =>
    refine ⟨rfl, ?_, ?_⟩
    · simpa [runAggOps] using hacc
    · simp [runAggOps, countNew, countClose]
  | cons op rest ih =>
    cases op with
    | newAgg =>
      have hrun : runAggOps a (AggOp.newAgg :: rest) = runAggOps a.newFloatAgg rest := rfl
      have hb : (a.newFloatAgg).bytes = a.bytes := by
        unfold QuantileAgg.newFloatAgg
        split <;> rfl
      have hout : (a.newFloatAgg).outstanding = a.outstanding + 1 := by
        unfold QuantileAgg.newFloatAgg
        split <;> rfl
      have hacc2 : (a.newFloatAgg).accounted =
          (a.newFloatAgg).bytes * (((a.newFloatAgg).outstanding : Int) +
            ((a.newFloatAgg).freeLen : Int)) := by
        unfold QuantileAgg.newFloatAgg
        split
        · rename_i hfree
          have : ((a.freeLen - 1 : Nat) : Int) = (a.freeLen : Int) - 1 := by omega
          simp only
          rw [hacc, this]
          push_cast
          ring
        · simp only
          rw [hacc]
          push_cast
          ring
      have hvalid2 : ∀ k, countClose (rest.take k) ≤
          (a.newFloatAgg).outstanding + countNew (rest.take k) := by
        intro k
        have h := hvalid (k + 1)
        rw [List.take_succ_cons, countClose_cons, countNew_cons] at h
        simp at h
        rw [hout]
        omega
      have h := ih (a.newFloatAgg) hacc2 hvalid2
      rw [hrun]
      refine ⟨h.1.trans hb, h.2.1.trans (by rw [hb]), ?_⟩
      rw [countClose_cons, countNew_cons]
      simp only [reduceIte]
      have h3 := h.2.2
      rw [hout] at h3
      simp
      omega
    | closeState =>
      have hrun : runAggOps a (AggOp.closeState :: rest) = runAggOps a.stateClose rest := rfl
      have houts : 1 ≤ a.outstanding := by
        have h := hvalid 1
        rcases rest with _ | _ <;>
          simpa [countClose, countNew, List.filter_cons] using h
      have hb : (a.stateClose).bytes = a.bytes := by
        unfold QuantileAgg.stateClose QuantileAgg.pushFreeDigest
        split <;> rfl
      have hout : (a.stateClose).outstanding = a.outstanding - 1 := by
        unfold QuantileAgg.stateClose
        rfl
      have hacc2 : (a.stateClose).accounted =
          (a.stateClose).bytes * (((a.stateClose).outstanding : Int) +
            ((a.stateClose).freeLen : Int)) := by
        unfold QuantileAgg.stateClose QuantileAgg.pushFreeDigest
        have hcast : ((a.outstanding - 1 : Nat) : Int) = (a.outstanding : Int) - 1 := by
          omega
        split
        · simp only
          rw [hacc, hcast]
          push_cast
          ring
        · simp only
          rw [hacc, hcast]
          ring
      have hvalid2 : ∀ k, countClose (rest.take k) ≤
          (a.stateClose).outstanding + countNew (rest.take k) := by
        intro k
        have h := hvalid (k + 1)
        rw [List.take_succ_cons, countClose_cons, countNew_cons] at h
        simp at h
        rw [hout]
        omega
      have h := ih (a.stateClose) hacc2 hvalid2
      rw [hrun]
      refine ⟨h.1.trans hb, h.2.1.trans (by rw [hb]), ?_⟩
      rw [countClose_cons, countNew_cons]
      simp only [reduceIte]
      have h3 := h.2.2
      rw [hout] at h3
      simp
      omega

/-- C9: over any sequence of `NewFloatAgg` and state `Close` calls in which
every created aggregate state is closed (a balanced, validly ordered
sequence), followed by `QuantileAgg.Close`, the digest accounting nets to
zero: each `+bytes` accounted when a fresh digest is created is offset by
exactly one `-bytes`, either in `pushFreeDigest` at capacity or in `Close`
for a digest retained on the free list. -/
theorem quantile_accounting (b : Int) (size : Nat) (ops : List AggOp)
    (hvalid : ValidAggOps ops) (hbal : countClose ops = countNew ops) :
    ((runAggOps (newQuantileAgg b size) ops).close).accounted = 0 := by
  have h := runAggOps_invariant ops (newQuantileAgg b size)
    (by simp [newQuantileAgg])
    (by intro k; simpa [newQuantileAgg] using hvalid k)
  obtain ⟨hb, hacc, hcount⟩ := h
  have hout : (runAggOps (newQuantileAgg b size) ops).outstanding = 0 := by
    have h0 : (newQuantileAgg b size).outstanding = 0 := rfl
    rw [h0, hbal] at hcount
    omega
  unfold QuantileAgg.close
  simp only
  rw [hacc, hb, hout]
  push_cast
  ring

/-- C9 witness: two fresh digests, both states closed, then the aggregate
closed, with byte size 100 and free-list capacity 1: the net accounting is
zero. -/
theorem quantile_accounting_witness :
    ValidAggOps [AggOp.newAgg, AggOp.newAgg, AggOp.closeState, AggOp.closeState] ∧
    countClose [AggOp.newAgg, AggOp.newAgg, AggOp.closeState, AggOp.closeState] =
      countNew [AggOp.newAgg, AggOp.newAgg, AggOp.closeState, AggOp.closeState] ∧
    ((runAggOps (newQuantileAgg 100 1)
      [AggOp.newAgg, AggOp.newAgg, AggOp.closeState, AggOp.closeState]).close).accounted = 0 := by
  refine ⟨by decide, by decide, ?_⟩
  exact quantile_accounting 100 1 _ (by decide) (by decide)

lemma not_isEmpty_of_length_ne {α : Type} (l : List α) (h : l.length ≠ 0) :
    (!l.isEmpty) = true := by
  cases l with
  | nil => simp at h
  | cons a t => simp

lemma flatten_filter_nonempty {α : Type} (l : List (List α)) :
    ((l.filter (fun c => !c.isEmpty)).flatten) = l.flatten := by
  induction l with
  | nil => rfl
  | cons c rest ih =>
    rw [List.filter_cons]
    cases c with
    | nil => simpa using ih
    | cons x xs => simpa using ih

lemma limitTable_join {α : Type} (bs : List (List α)) (n offset : Int)
    (hoff : 0 ≤ offset) :
    (limitTable n offset bs).flatten =
      (bs.flatten.drop offset.toNat).take n.toNat := by
  induction bs generalizing n offset with
  | nil => simp [limitTable]
  | cons cr rest ih =>
    by_cases hn : n ≤ 0
    · have hnt : n.toNat = 0 := by omega
      have hstep : limitTable n offset (cr :: rest) = limitTable n offset rest := by
        simp [limitTable, limitDoBatch, hn]
      rw [hstep, ih n offset hoff, hnt]
      simp
    · by_cases hskip : (cr.length : Int) ≤ offset
      · have hoff2 : 0 ≤ offset - (cr.length : Int) := by omega
        have hstep : limitTable n offset (cr :: rest) =
            limitTable n (offset - (cr.length : Int)) rest := by
          simp [limitTable, limitDoBatch, hn, hskip]
        rw [hstep, ih n _ hoff2, List.flatten_cons, List.drop_append_eq_append_drop]
        have h1 : cr.drop offset.toNat = [] := by
          apply List.drop_eq_nil_of_le
          omega
        have h2 : (offset - (cr.length : Int)).toNat = offset.toNat - cr.length := by
          omega
        rw [h1, h2]
        simp
      · have hlt : offset < (cr.length : Int) := by omega
        have hoffle : offset.toNat ≤ cr.length := by omega
        have hdroplen : (cr.drop offset.toNat).length = cr.length - offset.toNat := by
          simp
        have hrw : ((cr ++ rest.flatten).drop offset.toNat).take n.toNat =
            (cr.drop offset.toNat).take n.toNat ++
              rest.flatten.take (n.toNat - (cr.drop offset.toNat).length) := by
          rw [List.drop_append_eq_append_drop]
          have h0 : offset.toNat - cr.length = 0 := by omega
          rw [h0, List.drop_zero, List.take_append_eq_append_take, hdroplen]
        by_cases hcnt : (cr.length : Int) - offset > n
        · have hstep : limitTable n offset (cr :: rest) =
              (cr.drop offset.toNat).take n.toNat :: limitTable 0 0 rest := by
            simp [limitTable, limitDoBatch, hn, hskip, hcnt]
          rw [hstep, List.flatten_cons, ih 0 0 (le_refl 0), List.flatten_cons, hrw]
          have hz : ((0 : Int)).toNat = 0 := rfl
          have hsub : n.toNat - (cr.drop offset.toNat).length = 0 := by
            rw [hdroplen]
            omega
          rw [hz, hsub]
          simp
        · have hstep : limitTable n offset (cr :: rest) =
              (cr.drop offset.toNat).take ((cr.length : Int) - offset).toNat ::
                limitTable (n - ((cr.length : Int) - offset)) 0 rest := by
            simp [limitTable, limitDoBatch, hn, hskip, hcnt]
          rw [hstep, List.flatten_cons, ih _ 0 (le_refl 0), List.flatten_cons, hrw]
          have htake1 : (cr.drop offset.toNat).take ((cr.length : Int) - offset).toNat =
              cr.drop offset.toNat := by
            apply List.take_of_length_le
            rw [hdroplen]
            omega
          have htake2 : (cr.drop offset.toNat).take n.toNat = cr.drop offset.toNat := by
            apply List.take_of_length_le
            rw [hdroplen]
            omega
          have hsub : (n - ((cr.length : Int) - offset)).toNat =
              n.toNat - (cr.drop offset.toNat).length := by
            rw [hdroplen]
            omega
          rw [htake1, htake2, hsub]
          simp

lemma narrow_filter_eq {α : Type} (bs : List (List α)) (n offset : Int)
    (hoff : 0 ≤ offset) :
    (narrowProcess n offset bs).filter (fun c => !c.isEmpty) =
      limitTable n offset bs := by
  induction bs generalizing n offset with
  | nil => rfl
  | cons cr rest ih =>
    by_cases hn : n ≤ 0
    · have h1 : narrowProcess n offset (cr :: rest) =
          [] :: narrowProcess n offset rest := by
        simp [narrowProcess, processChunk, hn]
      have h2 : limitTable n offset (cr :: rest) = limitTable n offset rest := by
        simp [limitTable, limitDoBatch, hn]
      rw [h1, h2, List.filter_cons]
      simpa using ih n offset hoff
    · by_cases hcr : cr.length = 0
      · have hcrnil : cr = [] := List.length_eq_zero.mp hcr
        subst hcrnil
        have h1 : narrowProcess n offset ([] :: rest) =
            [] :: narrowProcess n offset rest := by
          simp [narrowProcess, processChunk]
        have h2 : limitTable n offset ([] :: rest) = limitTable n offset rest := by
          simp [limitTable, limitDoBatch, hn, hoff]
        rw [h1, h2, List.filter_cons]
        simpa using ih n offset hoff
      · by_cases hskip : (cr.length : Int) ≤ offset
        · have h1 : narrowProcess n offset (cr :: rest) =
              narrowProcess n (offset - (cr.length : Int)) rest := by
            simp [narrowProcess, processChunk, hn, hcr, hskip]
          have h2 : limitTable n offset (cr :: rest) =
              limitTable n (offset - (cr.length : Int)) rest := by
            simp [limitTable, limitDoBatch, hn, hskip]
          have hoff2 : 0 ≤ offset - (cr.length : Int) := by omega
          rw [h1, h2]
          exact ih n _ hoff2
        · have hlt : offset < (cr.length : Int) := by omega
          have hdroplen : (cr.drop offset.toNat).length = cr.length - offset.toNat := by
            simp
          by_cases hcnt : (cr.length : Int) - offset > n
          · have h1 : narrowProcess n offset (cr :: rest) =
                (cr.drop offset.toNat).take n.toNat :: narrowProcess 0 0 rest := by
              simp [narrowProcess, processChunk, hn, hcr, hskip, hcnt]
            have h2 : limitTable n offset (cr :: rest) =
                (cr.drop offset.toNat).take n.toNat :: limitTable 0 0 rest := by
              simp [limitTable, limitDoBatch, hn, hskip, hcnt]
            have hne : (!((cr.drop offset.toNat).take n.toNat).isEmpty) = true :=
              not_isEmpty_of_length_ne _ (by rw [List.length_take, hdroplen]; omega)
            rw [h1, h2, List.filter_cons, hne, if_pos rfl, ih 0 0 (le_refl 0)]
          · have h1 : narrowProcess n offset (cr :: rest) =
                (cr.drop offset.toNat).take ((cr.length : Int) - offset).toNat ::
                  narrowProcess (n - ((cr.length : Int) - offset)) 0 rest := by
              simp [narrowProcess, processChunk, hn, hcr, hskip, hcnt]
            have h2 : limitTable n offset (cr :: rest) =
                (cr.drop offset.toNat).take ((cr.length : Int) - offset).toNat ::
                  limitTable (n - ((cr.length : Int) - offset)) 0 rest := by
              simp [limitTable, limitDoBatch, hn, hskip, hcnt]
            have hne : (!((cr.drop offset.toNat).take
                ((cr.length : Int) - offset).toNat).isEmpty) = true :=
              not_isEmpty_of_length_ne _ (by rw [List.length_take, hdroplen]; omega)
            rw [h1, h2, List.filter_cons, hne, if_pos rfl, ih _ 0 (le_refl 0)]

/-- C10: on the same budget `n`, offset and input batch stream, the legacy
`limitTable` and the narrow `processChunk` pipeline emit exactly the same
rows in the same order — the rows obtained by skipping the first `offset`
input rows and keeping the next at most `n` — the narrow pipeline differing
only by additionally emitting zero-row chunks. -/
theorem limit_row_equivalence (α : Type) (n offset : Int)
    (bs : List (List α)) (hoff : 0 ≤ offset) :
    (narrowProcess n offset bs).filter (fun c => !c.isEmpty) =
      limitTable n offset bs ∧
    (narrowProcess n offset bs).flatten = (limitTable n offset bs).flatten ∧
    (limitTable n offset bs).flatten =
      (bs.flatten.drop offset.toNat).take n.toNat := by
  refine ⟨narrow_filter_eq bs n offset hoff, ?_, limitTable_join bs n offset hoff⟩
  rw [← narrow_filter_eq bs n offset hoff, flatten_filter_nonempty]

/-- C10 witness: skipping 2 rows and keeping 3 from the batches
`[1,2] [3,4,5] [6] [7,8]` gives rows 3, 4, 5 under both implementations. -/
theorem limit_row_equivalence_witness :
    (limitTable 3 2 [[1, 2], [3, 4, 5], [6], [7, 8]]).flatten =
      ((([[1, 2], [3, 4, 5], [6], [7, 8]] : List (List Nat)).flatten.drop
        ((2 : Int)).toNat).take ((3 : Int)).toNat) ∧
    (narrowProcess 3 2 [[1, 2], [3, 4, 5], [6], [7, 8]]).flatten =
      (limitTable 3 2 [[1, 2], [3, 4, 5], [6], [7, 8]] : List (List Nat)).flatten := by
  have h := limit_row_equivalence Nat 3 2 [[1, 2], [3, 4, 5], [6], [7, 8]] (by decide)
  exact ⟨h.2.2, h.2.1⟩

end FluxExec
